import Mathlib

set_option maxRecDepth 10000

/-!
# Verification development for the poker backend

Shallow embedding of the poker backend (`backend/main.py`,
`backend/ws_manager.py`, `backend/poker_engine/monte_carlo_ai.py`) and proofs
about it.  Python integers become `Int`/`Nat`, Python floats on the paths we
model carry only dyadic/decimal values that Lean's `ℚ` reproduces exactly at
every comparison the code performs, dict/list state becomes explicit
structures, and the event-loop behaviour (lock acquisition, sleeps,
broadcasts) is recorded as explicit event traces.

Functions of the repository that are not part of the given sources
(`poker_engine/utils.py`, `poker_engine/card.py`, `poker_engine/poker_engine_api.py`)
are either modelled from the spec (the hand evaluator) or taken as
parameters (the game engine's `execute_action`, `play_hand`,
`get_game_state`), so every theorem quantifies over their behaviour.
-/

namespace Poker

/-- A playing card: rank 2..14 (11=J, 12=Q, 13=K, 14=A) and suit 0..3.
Mirrors `poker_engine/card.py`'s `Card` (immutable value, equality by
rank+suit); the string rank/suit encoding is replaced by numbers. -/
structure Card where
  rank : Nat
  suit : Nat
deriving DecidableEq, Repr

/-- Insert into a descending-sorted list of naturals. -/
def insertDesc (x : Nat) : List Nat → List Nat
  | [] => [x]
  | y :: ys => if y ≤ x then x :: y :: ys else y :: insertDesc x ys

/-- Sort a list of naturals in descending order. -/
def sortDesc (l : List Nat) : List Nat := l.foldr insertDesc []

/-- Descending lexicographic order on (count, rank) pairs, as a Bool. -/
def pairGe (a b : Nat × Nat) : Bool := decide (b.1 < a.1 ∨ (a.1 = b.1 ∧ b.2 ≤ a.2))

/-- Insert into a list sorted descending by `pairGe`. -/
def insertPairDesc (x : Nat × Nat) : List (Nat × Nat) → List (Nat × Nat)
  | [] => [x]
  | y :: ys => if pairGe x y then x :: y :: ys else y :: insertPairDesc x ys

/-- Sort (count, rank) pairs descending lexicographically. -/
def sortPairsDesc (l : List (Nat × Nat)) : List (Nat × Nat) := l.foldr insertPairDesc []

/-- Group the multiset of ranks into (multiplicity, rank) pairs, sorted by
multiplicity first and rank second, both descending. -/
def rankGroups (ranks : List Nat) : List (Nat × Nat) :=
  sortPairsDesc (((sortDesc ranks).dedup).map (fun r => (ranks.count r, r)))

/-- Highest card of a straight formed by the given distinct descending ranks
(`some h`), `none` if they do not form a straight.  The wheel A-2-3-4-5
counts as a straight with high card 5. -/
def straightHigh (sortedDistinct : List Nat) : Option Nat :=
  match sortedDistinct with
  | [a, b, c, d, e] =>
    if a = b + 1 ∧ b = c + 1 ∧ c = d + 1 ∧ d = e + 1 then some a
    else if a = 14 ∧ b = 5 ∧ c = 4 ∧ d = 3 ∧ e = 2 then some 5
    else none
  | _ => none

/-- All five cards share a suit. -/
def isFlush (cs : List Card) : Bool :=
  match cs with
  | [] => false
  | c :: rest => rest.all (fun d => d.suit == c.suit)

/-- Modelled from the spec: the 5-card hand evaluator backing
`poker_engine/utils.py`'s `eval_hand`, which is not under `src/`.
Per spec §4.1 it returns the hand category (ordered worst→best:
high-card 0, pair 1, two-pair 2, three-of-a-kind 3, straight 4, flush 5,
full-house 6, four-of-a-kind 7, straight-flush 8) plus a tie-break key of
kicker ranks in descending significance, sufficient to order two hands of
the same category. -/
def eval5 (cs : List Card) : Nat × List Nat :=
  let ranks := cs.map Card.rank
  let sorted := sortDesc ranks
  let flush := isFlush cs
  let straight := straightHigh sorted.dedup
  match straight, flush with
  | some h, true => (8, [h])
  | _, _ =>
    match rankGroups ranks with
    | (4, q) :: rest => (7, q :: rest.map Prod.snd)
    | (3, t) :: (2, p) :: _ => (6, [t, p])
    | groups =>
      if flush then (5, sorted)
      else
        match straight with
        | some h => (4, [h])
        | none =>
          match groups with
          | (3, t) :: rest => (3, t :: rest.map Prod.snd)
          | (2, p1) :: (2, p2) :: rest => (2, p1 :: p2 :: rest.map Prod.snd)
          | (2, p) :: rest => (1, p :: rest.map Prod.snd)
          | _ => (0, sorted)

/-- Lexicographic ≤ on tie-break keys. -/
def keyLe : List Nat → List Nat → Bool
  | [], [] => true
  | [], _ :: _ => true
  | _ :: _, [] => false
  | a :: as, b :: bs => if a < b then true else if b < a then false else keyLe as bs

/-- Full comparison of two hand evaluations: category first, then the
tie-break key lexicographically (spec §4.1's ordering of hands). -/
def handLe (x y : Nat × List Nat) : Bool :=
  if x.1 < y.1 then true else if y.1 < x.1 then false else keyLe x.2 y.2

/-- Modelled from the spec: `eval_hand` from `poker_engine/utils.py`
(not under `src/`).  Per spec §4.1 it deterministically returns the best
achievable (category, tie-break key) over all 5-card combinations of the
given 5–7 cards; on fewer than 5 cards it returns the distinguishable
indeterminate result `(0, [])`. -/
def eval_hand (cs : List Card) : Nat × List Nat :=
  (cs.sublistsLen 5).foldl
    (fun best h => let e := eval5 h; if handLe best e then e else best) (0, [])

/-! ## Monte Carlo AI (`poker_engine/monte_carlo_ai.py`)

The shuffle of the reduced deck in each trial is the only randomness of
`estWin`; it is made explicit: each trial receives the shuffled reduced
deck as a list of cards, and the simulation budget `self.simulations`
becomes the length of the list of trials. -/

/-- The completed community board of one trial: the dealt community cards
plus cards drawn one at a time from the shuffled deck until five are on
the table (`while len(sim_community) < 5: sim_community += sim_deck.deal(1)`). -/
def completedBoard (community shuffled : List Card) : List Card :=
  community ++ shuffled.take (5 - community.length)

/-- The two hole cards dealt to opponent `i` in one trial
(`opp_hands.append(sim_deck.deal(2))`, dealt after the board is filled). -/
def oppHole (community shuffled : List Card) (i : Nat) : List Card :=
  ((shuffled.drop (5 - community.length)).drop (2 * i)).take 2

/-- One trial of `MonteCarloAI.estWin`: complete the board, deal two cards
to each opponent, evaluate; the trial wins iff there is no opponent or the
first component of our evaluation is ≥ the running maximum of the first
components of the opponents' evaluations
(`our_rank, _ = eval_hand(...)`; `if best_opp_rank is None or our_rank >= best_opp_rank`). -/
def simTrial (hand community : List Card) (opponents : Nat) (shuffled : List Card) : Bool :=
  let sim_community := completedBoard community shuffled
  let our_rank := (eval_hand (hand ++ sim_community)).1
  let best_opp :=
    (List.range opponents).foldl
      (fun best i =>
        let rank := (eval_hand (oppHole community shuffled i ++ sim_community)).1
        match best with
        | none => some rank
        | some b => if b < rank then some rank else some b)
      none
  match best_opp with
  | none => true
  | some b => decide (b ≤ our_rank)

/-- `MonteCarloAI.estWin`: 0.0 for an empty hand, else the number of
winning trials divided by the simulation count (= number of trials). -/
def estWin (hand community : List Card) (opponents : Nat)
    (trials : List (List Card)) : ℚ :=
  if hand = [] then 0
  else
    let wins : Nat :=
      trials.foldl (fun w s => if simTrial hand community opponents s then w + 1 else w) 0
    (wins : ℚ) / (trials.length : ℚ)

/-- The claim's win condition, following the spec's words (§4.3: "the
trial counts as a win if own tie-break ≥ the best opponent tie-break",
i.e. the full evaluation including the tie-break key is compared): the
trial wins iff every opponent's full (category, key) evaluation is ≤ ours
under `handLe`.  To be compared with `simTrial`, which is what the source
computes. -/
def specTrialWin (hand community : List Card) (opponents : Nat) (shuffled : List Card) : Bool :=
  let board := completedBoard community shuffled
  let ourEval := eval_hand (hand ++ board)
  (List.range opponents).all (fun i => handLe (eval_hand (oppHole community shuffled i ++ board)) ourEval)

/-! ## `MonteCarloAI.decide` -/

/-- The slice of one entry of the state dict's `players` list that
`MonteCarloAI.decide` reads: display name and hole cards. -/
structure MCPlayer where
  name : String
  hand : List Card
deriving DecidableEq, Repr

/-- The slice of the state dict produced by `get_game_state` that
`MonteCarloAI.decide` reads. -/
structure MCState where
  legal_actions : List String
  players : List MCPlayer
  community_cards : List Card
  pot : ℚ
  to_call : ℚ
deriving DecidableEq, Repr

/-- The `{"move": ..., "raise_amount": ...}` dict `decide` returns. -/
structure MCDecision where
  move : String
  raise_amount : Int
deriving DecidableEq, Repr

/-- `next((p for p in players if p["name"] == self.name), None)`. -/
def findBot (name : String) : List MCPlayer → Option MCPlayer
  | [] => none
  | p :: ps => if p.name = name then some p else findBot name ps

/-- The `{"easy": 0.05, "medium": 0.1, "hard": 0.2}[self.difficulty]`
lookup; `none` models the `KeyError` a Python dict raises on any other
difficulty string. -/
def bluffChance : String → Option ℚ
  | "easy" => some (5 / 100)
  | "medium" => some (1 / 10)
  | "hard" => some (2 / 10)
  | _ => none

/-- `random.choice([30, 70, 150])`, with the random index explicit. -/
def raiseMenu : Fin 3 → Int
  | ⟨0, _⟩ => 30
  | ⟨1, _⟩ => 70
  | ⟨2, _⟩ => 150

namespace MonteCarloAI

/-- `MonteCarloAI.decide`, with every random input explicit: `trials` are
the per-trial deck shuffles consumed by `estWin`, `raisePick` is the
`random.choice` index over the raise menu, and `bluffRoll` is the
`random.random()` draw of the bluff branch.  The result is
`Except.error` on the `KeyError` of an unknown difficulty and
`Except.ok none` when the Python function falls off the end and
returns `None` (win probability above 0.7 with neither raise nor call
legal). -/
def decide (name difficulty : String) (trials : List (List Card))
    (raisePick : Fin 3) (bluffRoll : ℚ) (st : MCState) :
    Except String (Option MCDecision) :=
  if st.legal_actions = [] then .ok (some ⟨"check", 0⟩)
  else
    match findBot name st.players with
    | none => .ok (some ⟨"fold", 0⟩)
    | some bot =>
      let win_prob := estWin bot.hand st.community_cards (st.players.length - 1) trials
      if (7 / 10 : ℚ) < win_prob then
        if "raise" ∈ st.legal_actions then .ok (some ⟨"raise", raiseMenu raisePick⟩)
        else if "call" ∈ st.legal_actions then .ok (some ⟨"call", 0⟩)
        else .ok none
      else if (45 / 100 : ℚ) < win_prob then
        if "call" ∈ st.legal_actions ∧ st.to_call < st.pot * (2 / 5) then .ok (some ⟨"call", 0⟩)
        else if "check" ∈ st.legal_actions then .ok (some ⟨"check", 0⟩)
        else .ok (some ⟨"fold", 0⟩)
      else
        match bluffChance difficulty with
        | none => .error "KeyError"
        | some bc =>
          if "raise" ∈ st.legal_actions ∧ bluffRoll < bc then .ok (some ⟨"raise", 30⟩)
          else if "check" ∈ st.legal_actions then .ok (some ⟨"check", 0⟩)
          else .ok (some ⟨"fold", 0⟩)

end MonteCarloAI

/-! ## Game state and the coordinator (`main.py`)

`PokerGame` itself (`poker_engine_api.py`) is not part of the sources:
its methods `execute_action`, `play_hand` and `get_game_state` enter the
model as parameters.  `main.py` reads and writes only the fields below. -/

/-- The fields of a `PokerGame` player that `main.py` touches. -/
structure Player where
  name : String
  chips : Int
  hand : List Card
  folded : Bool
  current_bet : Int
  is_bot : Bool
deriving DecidableEq, Repr

/-- The fields of a `PokerGame` that `main.py` touches. -/
structure Game where
  stage : String
  players : List Player
  lobby_timer : Option Nat
  game_starting : Bool
  game_over : Bool
  current_player_index : Option Nat
deriving DecidableEq, Repr

/-- Python list indexing `l[i]`: non-negative indices from the front,
negative indices from the back, `none` on the `IndexError` range. -/
def pyGet {α : Type} (l : List α) (i : Int) : Option α :=
  if 0 ≤ i then l.get? i.toNat
  else if (-i).toNat ≤ l.length then l.get? (l.length - (-i).toNat)
  else none

/-- `LOBBY_DURATION` from `main.py`. -/
def LOBBY_DURATION : Nat := 15

/-- `MIN_PLAYERS` from `main.py`. -/
def MIN_PLAYERS : Nat := 2

/-- `sum(1 for p in game.players if getattr(p, "name", "") and ... != "")`:
the number of seats with a non-empty name. -/
def activePlayers (g : Game) : Nat :=
  (g.players.filter (fun p => p.name ≠ "")).length

/-! ### `join_seat` -/

/-- The distinct rejection causes of `join_seat`: HTTP 400 "Can only join
seats during lobby phase", HTTP 400 "Invalid seat index", HTTP 409 "Seat
already taken". -/
inductive JoinError where
  | wrongStage
  | invalidSeat
  | seatTaken
deriving DecidableEq, Repr

/-- The `join_seat` handler of `main.py` on one game.  Returns the game
state after the call together with the rejection, if any (the session
lookup, HTTP 404 for an unknown id, is upstream of the game argument
and not modelled). -/
def join_seat (g : Game) (player_name : String) (seat_index : Int) :
    Game × Option JoinError :=
  if g.stage ≠ "lobby" then (g, some .wrongStage)
  else if seat_index < 0 ∨ (g.players.length : Int) ≤ seat_index then (g, some .invalidSeat)
  else
    match g.players.get? seat_index.toNat with
    | none => (g, some .invalidSeat)
    | some existing =>
      if existing.name ≠ "" then (g, some .seatTaken)
      else
        let p : Player :=
          { existing with
            name := player_name
            is_bot := false
            folded := false
            current_bet := 0
            chips := if existing.chips ≤ 0 then 1000 else existing.chips
            hand := [] }
        ({ g with players := g.players.set seat_index.toNat p }, none)

/-! ### Lobby countdown -/

/-- Observable events of the lobby countdown: a broadcast carrying the
game's `(lobby_timer, game_starting)` fields at that point, the
one-second wait between ticks, and the restart of the countdown task. -/
inductive LEvent where
  | broadcast (timer : Option Nat) (starting : Bool)
  | sleepOneSecond
  | restartTimer
deriving DecidableEq, Repr

/-- One tick of `lobby_countdown`: set `game.lobby_timer = remaining` and
`game.game_starting = remaining <= 5 and remaining > 0`. -/
def lobbyTickStep (g : Game) (remaining : Nat) : Game :=
  { g with
    lobby_timer := some remaining
    game_starting := decide (remaining ≤ 5 ∧ 0 < remaining) }

/-- `range(LOBBY_DURATION, -1, -1)`: the tick values 15, 14, …, 0. -/
def countdownTicks : List Nat :=
  (List.range (LOBBY_DURATION + 1)).map (fun k => LOBBY_DURATION - k)

/-- The body of the `for remaining in range(LOBBY_DURATION, -1, -1)`
loop of `lobby_countdown`: the tick updates the game, broadcasts, and
sleeps one second unless `remaining == 0` broke the loop. -/
def countdownStep (acc : Game × List LEvent) (r : Nat) : Game × List LEvent :=
  let g' := lobbyTickStep acc.1 r
  let evs := acc.2 ++ [LEvent.broadcast g'.lobby_timer g'.game_starting]
  if r = 0 then (g', evs) else (g', evs ++ [LEvent.sleepOneSecond])

/-- The `for remaining in range(LOBBY_DURATION, -1, -1)` loop of
`lobby_countdown`. -/
def runCountdownTicks (g : Game) : Game × List LEvent :=
  countdownTicks.foldl countdownStep (g, [])

/-- `check_and_start_game` of `main.py`, with the engine's `play_hand`
as a parameter: with at least `MIN_PLAYERS` occupied seats the stage
becomes `"preflop"`, the timer is cleared and a hand is played; otherwise
the timer is reset to `LOBBY_DURATION` and the countdown task restarted.
Each branch broadcasts. -/
def check_and_start_game (playHand : Game → Game) (g : Game) : Game × List LEvent :=
  if MIN_PLAYERS ≤ activePlayers g then
    let g' := playHand { g with stage := "preflop", lobby_timer := none, game_starting := false }
    (g', [LEvent.broadcast g'.lobby_timer g'.game_starting])
  else
    let g' := { g with lobby_timer := some LOBBY_DURATION }
    (g', [LEvent.broadcast g'.lobby_timer g'.game_starting, LEvent.restartTimer])

/-- `lobby_countdown` of `main.py`: run the ticks, then
`check_and_start_game`. -/
def lobby_countdown (playHand : Game → Game) (g : Game) : Game × List LEvent :=
  let t := runCountdownTicks g
  let c := check_and_start_game playHand t.1
  (c.1, t.2 ++ c.2)

/-! ### `player_action` and the automated-turn loop -/

/-- Events of the `player_action` handler relevant to its concurrency
behaviour: acquiring/releasing `locks[game_id]`, the
`await asyncio.sleep(think_time)` of the AI loop, an
`execute_action` application, and a broadcast. -/
inductive PEvent where
  | acquireLock
  | releaseLock
  | sleepThink
  | applyAction
  | broadcastState
deriving DecidableEq, Repr

/-- The engine and decision functions `player_action` calls but whose
code (`poker_engine_api.py`, plus `decide` composed with
`get_game_state` and the worker-failure fallback to fold) is outside the
modelled sources. -/
structure AIStepFns where
  execA : Game → Int → String → Int → Game
  decideF : Game → String × Int

/-- The guard of the AI turn loop:
`not game.game_over and game.current_player_index is not None and
getattr(game.players[game.current_player_index], "is_bot", False)`.
`none` models the `IndexError` of `game.players[i]` on an invalid index. -/
def aiGuard (g : Game) : Option Bool :=
  if g.game_over then some false
  else
    match g.current_player_index with
    | none => some false
    | some i => (g.players.get? i).map Player.is_bot

/-- The `while … and ai_iterations < max_ai_iterations` AI turn loop of
`player_action`.  `fuel` is the remaining iteration budget
(`max_ai_iterations - ai_iterations`), `iters` the iterations already
executed.  The result carries the final game, the total iteration count
and the message of an uncaught exception, if any, plus the event trace. -/
def ai_loop (fns : AIStepFns) : Nat → Nat → Game → (Game × Nat × Option String) × List PEvent
  | fuel, iters, g =>
    match aiGuard g with
    | none => ((g, iters, some "IndexError"), [])
    | some false => ((g, iters, none), [])
    | some true =>
      match fuel with
      | 0 => ((g, iters, none), [])
      | f + 1 =>
        let mvamt := fns.decideF g
        let i : Int := Int.ofNat (g.current_player_index.getD 0)
        let g2 := fns.execA g i mvamt.1 mvamt.2
        let r := ai_loop fns f (iters + 1) g2
        (r.1, PEvent.sleepThink :: PEvent.applyAction :: PEvent.broadcastState :: r.2)

/-- `max_ai_iterations` from `player_action`. -/
def max_ai_iterations : Nat := 20

/-- Outcome of the `player_action` handler: an HTTP rejection raised
before the lock, an uncaught exception (the transport turns it into a
500), or success carrying the number of automated turns executed. -/
inductive ActionOutcome where
  | http (code : Nat) (detail : String)
  | panic (msg : String)
  | ok (iters : Nat)
deriving DecidableEq, Repr

/-- The `player_action` handler of `main.py` on one game (the session
lookup, HTTP 404, is upstream of the game argument and not modelled).
The lobby-stage check happens before the lock; inside the lock the debug
print indexes `game.players[player_index]` before any validation — an
out-of-range index raises `IndexError` there; then the action is applied
and broadcast and the AI turn loop runs, all before the lock is
released. -/
def player_action (fns : AIStepFns) (g : Game) (player_index : Int)
    (action : String) (raise_amount : Int) : Game × ActionOutcome × List PEvent :=
  if g.stage = "lobby" then
    (g, .http 400 "Game is in lobby phase - cannot perform actions", [])
  else
    match pyGet g.players player_index with
    | none => (g, .panic "IndexError", [PEvent.acquireLock, PEvent.releaseLock])
    | some _ =>
      let g1 := fns.execA g player_index action raise_amount
      let r := ai_loop fns max_ai_iterations 0 g1
      let evs := PEvent.acquireLock :: PEvent.applyAction :: PEvent.broadcastState ::
        (r.2 ++ [PEvent.releaseLock])
      match r.1.2.2 with
      | some msg => (r.1.1, .panic msg, evs)
      | none => (r.1.1, .ok r.1.2.1, evs)

/-- Scan an event trace, returning `true` iff some `sleepThink` happens
while `locks[game_id]` is held. -/
def sleepHeldAux : Bool → List PEvent → Bool
  | _, [] => false
  | held, e :: es =>
    match e with
    | PEvent.acquireLock => sleepHeldAux true es
    | PEvent.releaseLock => sleepHeldAux false es
    | PEvent.sleepThink => if held then true else sleepHeldAux held es
    | _ => sleepHeldAux held es

/-- Some think-time sleep happens while the session lock is held. -/
def anySleepWhileHeld (evs : List PEvent) : Bool := sleepHeldAux false evs

/-- Scan an event trace, returning `true` iff some `sleepThink` happens
while the lock is not held. -/
def sleepUnheldAux : Bool → List PEvent → Bool
  | _, [] => false
  | held, e :: es =>
    match e with
    | PEvent.acquireLock => sleepUnheldAux true es
    | PEvent.releaseLock => sleepUnheldAux false es
    | PEvent.sleepThink => if held then sleepUnheldAux held es else true
    | _ => sleepUnheldAux held es

/-- Some think-time sleep happens outside the session lock. -/
def anySleepWhileUnheld (evs : List PEvent) : Bool := sleepUnheldAux false evs

/-! ## Connection registry (`ws_manager.py`)

WebSocket objects are identified by a `Nat` handle.  Python's in-place
mutation of a `ConnectionState` shared between `game_connections` and
`ws_to_state` is modelled by rewriting the value in both maps. -/

/-- `ConnectionState` from `ws_manager.py`, plus the handle `ws` of the
websocket it wraps. -/
structure ConnState where
  ws : Nat
  connection_id : Nat
  role : String
  player_name : Option String
  seat_index : Option Int
  game_id : Option String
deriving DecidableEq, Repr

/-- `ConnectionState.upgrade_to_player`: sets the role and binds name and
seat.  No validation of either. -/
def ConnState.upgrade_to_player (c : ConnState) (player_name : String) (seat_index : Int) :
    ConnState :=
  { c with role := "player", player_name := some player_name, seat_index := some seat_index }

/-- `ConnectionState.downgrade_to_spectator`. -/
def ConnState.downgrade_to_spectator (c : ConnState) : ConnState :=
  { c with role := "spectator", player_name := none, seat_index := none }

/-- `ConnectionState.is_player`. -/
def ConnState.is_player (c : ConnState) : Bool :=
  c.role == "player" && c.player_name.isSome

/-- Association-list lookup (Python dict `d.get(k)` / `d[k]`). -/
def aget {κ α : Type} [DecidableEq κ] (k : κ) : List (κ × α) → Option α
  | [] => none
  | e :: es => if e.1 = k then some e.2 else aget k es

/-- Association-list update `d[k] = v` (replaces the binding, or appends
a new one). -/
def aset {κ α : Type} [DecidableEq κ] (k : κ) (v : α) : List (κ × α) → List (κ × α)
  | [] => [(k, v)]
  | e :: es => if e.1 = k then (k, v) :: es else e :: aset k v es

/-- Association-list deletion `del d[k]` (no-op when absent, matching the
guarded `if k in d: del d[k]` uses in the source). -/
def adel {κ α : Type} [DecidableEq κ] (k : κ) : List (κ × α) → List (κ × α)
  | [] => []
  | e :: es => if e.1 = k then es else e :: adel k es

/-- `ConnectionManager`'s state: `game_connections` maps a game id to its
list of connection states, `ws_to_state` maps a websocket handle to its
connection state. -/
structure ConnectionManager where
  game_connections : List (String × List ConnState)
  ws_to_state : List (Nat × ConnState)
  connection_counter : Nat
deriving DecidableEq, Repr

/-- `ConnectionManager.connect`: registers a fresh spectator connection
in both maps. -/
def connect (m : ConnectionManager) (game_id : String) (ws : Nat) :
    ConnectionManager × ConnState :=
  let n := m.connection_counter + 1
  let c : ConnState :=
    { ws := ws, connection_id := n, role := "spectator",
      player_name := none, seat_index := none, game_id := some game_id }
  let conns := (aget game_id m.game_connections).getD []
  ({ game_connections := aset game_id (conns ++ [c]) m.game_connections
     ws_to_state := aset ws c m.ws_to_state
     connection_counter := n }, c)

/-- `ConnectionManager.disconnect`: drops the connection bound to `ws`
from the game's list (first occurrence, Python `list.remove`) and from
`ws_to_state`; a no-op for an unregistered websocket. -/
def disconnect (m : ConnectionManager) (game_id : String) (ws : Nat) : ConnectionManager :=
  match aget ws m.ws_to_state with
  | none => m
  | some conn =>
    let gcs :=
      match aget game_id m.game_connections with
      | none => m.game_connections
      | some conns => aset game_id (conns.erase conn) m.game_connections
    { m with game_connections := gcs, ws_to_state := adel ws m.ws_to_state }

/-- `ConnectionManager.upgrade_connection_to_player`: `False` iff the
websocket is unregistered; otherwise mutates the shared
`ConnectionState` (modelled by rewriting it in both maps) and returns
`True`.  No check of the seat index, the seat's occupancy, or the name. -/
def upgrade_connection_to_player (m : ConnectionManager) (ws : Nat)
    (player_name : String) (seat_index : Int) : Bool × ConnectionManager :=
  match aget ws m.ws_to_state with
  | none => (false, m)
  | some conn =>
    let conn' := conn.upgrade_to_player player_name seat_index
    let gcs :=
      match conn.game_id with
      | none => m.game_connections
      | some gid =>
        match aget gid m.game_connections with
        | none => m.game_connections
        | some conns => aset gid (conns.replace conn conn') m.game_connections
    (true, { m with game_connections := gcs, ws_to_state := aset ws conn' m.ws_to_state })

/-- The viewer name a broadcast personalizes for:
`conn_state.player_name if conn_state.is_player() else None`. -/
def viewerName (c : ConnState) : Option String :=
  if c.is_player then c.player_name else none

/-- One step of the `for conn_state in connections` loop of
`ConnectionManager.broadcast`: a failing send appends the connection to
`remove_list`, a successful one delivers the personalized snapshot. -/
def broadcastStep {σ : Type} (fails : ConnState → Bool) (personalize : Option String → σ)
    (acc : List (Nat × σ) × List ConnState) (c : ConnState) :
    List (Nat × σ) × List ConnState :=
  if fails c then (acc.1, acc.2 ++ [c])
  else (acc.1 ++ [(c.ws, personalize (viewerName c))], acc.2)

/-- `ConnectionManager.broadcast` over one game: sends each registered
viewer its personalized snapshot (`personalize` stands for
`game.get_game_state(viewer_name=...)`, whose code is outside the
sources; `fails` says which sends raise), then disconnects every
connection whose send failed.  Returns the new manager and the list of
(websocket, snapshot) pairs delivered. -/
def broadcast {σ : Type} (fails : ConnState → Bool) (personalize : Option String → σ)
    (m : ConnectionManager) (game_id : String) :
    ConnectionManager × List (Nat × σ) :=
  let conns := (aget game_id m.game_connections).getD []
  let sr := conns.foldl (broadcastStep fails personalize) ([], [])
  let m' := sr.2.foldl (fun mm c => disconnect mm game_id c.ws) m
  (m', sr.1)

/-- The reply of the websocket endpoint to an `upgrade_to_player`
message. -/
inductive WsReply (σ : Type) where
  | upgradeSuccess (state : σ)
  | upgradeFailed (error : String)

/-- The `upgrade_to_player` branch of `websocket_endpoint` in `main.py`:
upgrade the connection, then reply `upgrade_success` with a state
personalized for the player's name, or `upgrade_failed`.  The game is
only read (`personalize g` stands for `game.get_game_state`), never
written; the returned game is the game after the branch. -/
def handle_upgrade_to_player {σ : Type} (personalize : Game → Option String → σ)
    (g : Game) (m : ConnectionManager) (ws : Nat)
    (player_name : String) (seat_index : Int) :
    Game × ConnectionManager × WsReply σ :=
  let r := upgrade_connection_to_player m ws player_name seat_index
  if r.1 then (g, r.2, .upgradeSuccess (personalize g (some player_name)))
  else (g, r.2, .upgradeFailed "Could not upgrade to player")

/-! ## Helper lemmas -/

theorem aget_aset_self {κ α : Type} [DecidableEq κ] (k : κ) (v : α) :
    ∀ l : List (κ × α), aget k (aset k v l) = some v
  | [] => by simp [aget, aset]
  | e :: es => by
    by_cases h : e.1 = k
    · simp [aget, aset, h]
    · simp [aget, aset, h, aget_aset_self k v es]

theorem aget_aset_ne {κ α : Type} [DecidableEq κ] (k k' : κ) (v : α) (h : k ≠ k') :
    ∀ l : List (κ × α), aget k' (aset k v l) = aget k' l
  | [] => by simp [aget, aset, h]
  | e :: es => by
    by_cases he : e.1 = k
    · simp [aget, aset, he, h, aget]
    · simp only [aset, if_neg he, aget]
      by_cases he' : e.1 = k'
      · simp [he']
      · simp [he', aget_aset_ne k k' v h es]

theorem aget_adel_ne {κ α : Type} [DecidableEq κ] (k k' : κ) (h : k ≠ k') :
    ∀ l : List (κ × α), aget k' (adel k l) = aget k' l
  | [] => by simp [adel]
  | e :: es => by
    by_cases he : e.1 = k
    · simp only [adel, if_pos he, aget, he]
      simp [if_neg h]
    · simp only [adel, if_neg he, aget]
      by_cases he' : e.1 = k'
      · simp [he']
      · simp [he', aget_adel_ne k k' h es]

theorem mem_adel {κ α : Type} [DecidableEq κ] (k : κ) {p : κ × α} :
    ∀ (l : List (κ × α)), p ∈ adel k l → p ∈ l
  | [], h => by simp [adel] at h
  | e :: es, h => by
    by_cases he : e.1 = k
    · simp only [adel, if_pos he] at h
      exact List.mem_cons_of_mem _ h
    · simp only [adel, if_neg he] at h
      rcases List.mem_cons.mp h with h1 | h1
      · exact h1 ▸ List.mem_cons_self _ _
      · exact List.mem_cons_of_mem _ (mem_adel k es h1)

theorem aget_eq_none_of_not_mem_keys {κ α : Type} [DecidableEq κ] (k : κ) :
    ∀ l : List (κ × α), k ∉ l.map Prod.fst → aget k l = none
  | [], _ => rfl
  | e :: es, h => by
    rw [List.map_cons] at h
    have he : e.1 ≠ k := fun hh => h (by simp [hh])
    simp only [aget, if_neg he]
    exact aget_eq_none_of_not_mem_keys k es (fun hm => h (List.mem_cons_of_mem _ hm))

theorem aget_adel_self {κ α : Type} [DecidableEq κ] (k : κ) :
    ∀ l : List (κ × α), (l.map Prod.fst).Nodup → aget k (adel k l) = none
  | [], _ => rfl
  | e :: es, h => by
    rw [List.map_cons, List.nodup_cons] at h
    by_cases he : e.1 = k
    · simp only [adel, if_pos he]
      exact aget_eq_none_of_not_mem_keys k es (he ▸ h.1)
    · simp only [adel, if_neg he, aget, if_neg he]
      exact aget_adel_self k es h.2

theorem keys_adel {κ α : Type} [DecidableEq κ] (k : κ) :
    ∀ l : List (κ × α), (l.map Prod.fst).Nodup → ((adel k l).map Prod.fst).Nodup
  | [], _ => by simp [adel]
  | e :: es, h => by
    rw [List.map_cons, List.nodup_cons] at h
    by_cases he : e.1 = k
    · simpa [adel, he] using h.2
    · simp only [adel, if_neg he, List.map_cons, List.nodup_cons]
      refine ⟨?_, keys_adel k es h.2⟩
      intro hm
      rcases (List.mem_map).mp hm with ⟨p, hp, hpe⟩
      exact h.1 (hpe ▸ List.mem_map_of_mem Prod.fst (mem_adel k es hp))

/-- Out-of-range Python indices (≥ length, or < −length) yield `IndexError`. -/
theorem pyGet_eq_none_of_out_of_range {α : Type} (l : List α) (i : Int)
    (h : (l.length : Int) ≤ i ∨ i < -(l.length : Int)) : pyGet l i = none := by
  unfold pyGet
  rcases h with h | h
  · have h0 : 0 ≤ i := le_trans (by positivity) h
    rw [if_pos h0]
    exact List.get?_eq_none.mpr (by omega)
  · have h0 : ¬ 0 ≤ i := by omega
    rw [if_neg h0, if_neg (by omega)]

/-! ## Claim C7 — `join_seat` validation and success update -/

/-- C7: every join-seat command in a non-lobby stage, with an
out-of-range seat index, or aimed at an occupied seat (non-empty name) is
rejected with its specific cause and the game is returned unchanged;
otherwise the seat gets the given name, cleared folded flag, committed
bet 0, empty hole cards, and chips bumped to 1000 exactly when they were
not positive, with every other seat and game field untouched. -/
theorem C7_join_seat_validation (g : Game) (name : String) (seat : Int) :
    (g.stage ≠ "lobby" → join_seat g name seat = (g, some JoinError.wrongStage))
  ∧ (g.stage = "lobby" → (seat < 0 ∨ (g.players.length : Int) ≤ seat) →
      join_seat g name seat = (g, some JoinError.invalidSeat))
  ∧ (∀ existing, g.stage = "lobby" → 0 ≤ seat → seat < (g.players.length : Int) →
      g.players.get? seat.toNat = some existing → existing.name ≠ "" →
      join_seat g name seat = (g, some JoinError.seatTaken))
  ∧ (∀ existing, g.stage = "lobby" → 0 ≤ seat → seat < (g.players.length : Int) →
      g.players.get? seat.toNat = some existing → existing.name = "" →
      join_seat g name seat =
        ({ g with players := g.players.set seat.toNat
                    ({ existing with
                        name := name, is_bot := false, folded := false, current_bet := 0,
                        chips := if existing.chips ≤ 0 then 1000 else existing.chips,
                        hand := [] }) }, none)) := by
  refine ⟨?_, ?_, ?_, ?_⟩
  · intro h
    simp only [join_seat, if_pos h]
  · intro h hr
    have h1 : ¬ (g.stage ≠ "lobby") := by simp [h]
    simp only [join_seat, if_neg h1, if_pos hr]
  · intro existing h h0 hlt hget hname
    have h1 : ¬ (g.stage ≠ "lobby") := by simp [h]
    have h2 : ¬ (seat < 0 ∨ (g.players.length : Int) ≤ seat) := by
      push_neg
      exact ⟨h0, hlt⟩
    simp only [join_seat, if_neg h1, if_neg h2, hget, if_pos hname]
  · intro existing h h0 hlt hget hname
    have h1 : ¬ (g.stage ≠ "lobby") := by simp [h]
    have h2 : ¬ (seat < 0 ∨ (g.players.length : Int) ≤ seat) := by
      push_neg
      exact ⟨h0, hlt⟩
    have h3 : ¬ (existing.name ≠ "") := by simp [hname]
    simp only [join_seat, if_neg h1, if_neg h2, hget, if_neg h3]

/-- An empty seat with non-positive chips and stale folded/bet fields. -/
def wPlayerEmpty : Player :=
  { name := "", chips := 0, hand := [], folded := true, current_bet := 5, is_bot := false }

/-- An occupied seat. -/
def wPlayerBob : Player :=
  { name := "Bob", chips := 800, hand := [], folded := false, current_bet := 0, is_bot := false }

/-- A two-seat lobby game: seat 0 empty, seat 1 occupied. -/
def wLobbyGame : Game :=
  { stage := "lobby", players := [wPlayerEmpty, wPlayerBob], lobby_timer := some 15,
    game_starting := false, game_over := false, current_player_index := none }

theorem C7_join_seat_validation_witness :
    join_seat wLobbyGame "Ann" 0 =
      ({ wLobbyGame with players := [({ wPlayerEmpty with name := "Ann", is_bot := false, folded := false, current_bet := 0, chips := 1000, hand := [] }), wPlayerBob] }, none)
  ∧ join_seat wLobbyGame "Ann" 5 = (wLobbyGame, some JoinError.invalidSeat)
  ∧ join_seat wLobbyGame "Ann" 1 = (wLobbyGame, some JoinError.seatTaken)
  ∧ join_seat { wLobbyGame with stage := "preflop" } "Ann" 0 =
      ({ wLobbyGame with stage := "preflop" }, some JoinError.wrongStage) := by
  refine ⟨?_, ?_, ?_, ?_⟩
  · exact (C7_join_seat_validation wLobbyGame "Ann" 0).2.2.2 wPlayerEmpty rfl
      (by decide) (by decide) rfl rfl
  · exact (C7_join_seat_validation wLobbyGame "Ann" 5).2.1 rfl (by decide)
  · exact (C7_join_seat_validation wLobbyGame "Ann" 1).2.2.1 wPlayerBob rfl
      (by decide) (by decide) rfl (by decide)
  · exact (C7_join_seat_validation { wLobbyGame with stage := "preflop" } "Ann" 0).1 (by decide)

/-! ## Claim C10 — `upgrade_connection_to_player` -/

/-- C10: for a registered websocket, `upgrade_connection_to_player`
returns `True` and binds the given name and seat index on the connection
state — the theorem quantifies over an arbitrary name and an arbitrary
(possibly out-of-range) seat index with no hypothesis about the seats,
i.e. no validation happens — and it returns `False` exactly when the
websocket is unregistered; the websocket-endpoint branch never modifies
the game, only the connection state. -/
theorem C10_upgrade_no_validation {σ : Type} (personalize : Game → Option String → σ)
    (g : Game) (m : ConnectionManager) (ws : Nat) (player_name : String) (seat_index : Int) :
    (aget ws m.ws_to_state = none →
      upgrade_connection_to_player m ws player_name seat_index = (false, m))
  ∧ (∀ conn, aget ws m.ws_to_state = some conn →
      (upgrade_connection_to_player m ws player_name seat_index).1 = true
      ∧ aget ws (upgrade_connection_to_player m ws player_name seat_index).2.ws_to_state
          = some ({ conn with role := "player", player_name := some player_name, seat_index := some seat_index }))
  ∧ (handle_upgrade_to_player personalize g m ws player_name seat_index).1 = g := by
  refine ⟨?_, ?_, ?_⟩
  · intro h
    simp only [upgrade_connection_to_player, h]
  · intro conn h
    refine ⟨by simp only [upgrade_connection_to_player, h], ?_⟩
    simp only [upgrade_connection_to_player, h]
    exact aget_aset_self ws _ m.ws_to_state
  · unfold handle_upgrade_to_player
    by_cases h : (upgrade_connection_to_player m ws player_name seat_index).1 <;> simp [h]

/-- A registered spectator connection on websocket handle 7. -/
def wConn : ConnState :=
  { ws := 7, connection_id := 1, role := "spectator", player_name := none,
    seat_index := none, game_id := some "g1" }

/-- A manager with `wConn` registered for game `"g1"`. -/
def wManager : ConnectionManager :=
  { game_connections := [("g1", [wConn])], ws_to_state := [(7, wConn)],
    connection_counter := 1 }

theorem C10_upgrade_no_validation_witness :
    (upgrade_connection_to_player wManager 7 "Zed" 99).1 = true
  ∧ aget 7 (upgrade_connection_to_player wManager 7 "Zed" 99).2.ws_to_state = some ({ wConn with role := "player", player_name := some "Zed", seat_index := some 99 })
  ∧ upgrade_connection_to_player wManager 9 "Zed" 0 = (false, wManager)
  ∧ (handle_upgrade_to_player (fun _ v => v) wLobbyGame wManager 7 "Zed" 99).1 = wLobbyGame := by
  have h := C10_upgrade_no_validation (fun _ v => v) wLobbyGame wManager 7 "Zed" 99
  have h9 := C10_upgrade_no_validation (fun _ v => v) wLobbyGame wManager 9 "Zed" 0
  exact ⟨(h.2.1 wConn rfl).1, (h.2.1 wConn rfl).2, h9.1 rfl, h.2.2⟩

/-! ## Claim C2 — out-of-range seat index in `player_action` -/

/-- C2 (evaluating the code at the failing configuration): in any
non-lobby stage, a submit-action command whose seat index is out of
range for the game's seat list makes the handler raise an uncaught
`IndexError` (at the debug print, before `execute_action` is reached):
the command does not mutate the game, but the handler panics instead of
rejecting it. -/
theorem C2_out_of_range_panics (fns : AIStepFns) (g : Game) (player_index : Int)
    (action : String) (raise_amount : Int)
    (hstage : g.stage ≠ "lobby")
    (hrange : (g.players.length : Int) ≤ player_index ∨
      player_index < -(g.players.length : Int)) :
    player_action fns g player_index action raise_amount =
      (g, ActionOutcome.panic "IndexError", [PEvent.acquireLock, PEvent.releaseLock]) := by
  have h := pyGet_eq_none_of_out_of_range g.players player_index hrange
  simp only [player_action, if_neg hstage, h]

/-- A stub engine that applies no state change and a constant decision
function. -/
def fns0 : AIStepFns :=
  { execA := fun g _ _ _ => g, decideF := fun _ => ("fold", 0) }

/-- A two-seat game in the preflop stage. -/
def wPreflopGame : Game :=
  { stage := "preflop", players := [wPlayerBob, wPlayerBob], lobby_timer := none,
    game_starting := false, game_over := false, current_player_index := some 0 }

theorem C2_out_of_range_panics_witness :
    player_action fns0 wPreflopGame 2 "call" 0 =
      (wPreflopGame, ActionOutcome.panic "IndexError",
        [PEvent.acquireLock, PEvent.releaseLock])
  ∧ wPreflopGame.stage ≠ "lobby"
  ∧ (wPreflopGame.players.length : Int) ≤ 2 :=
  ⟨C2_out_of_range_panics fns0 wPreflopGame 2 "call" 0 (by decide) (Or.inl (by decide)),
    by decide, by decide⟩

/-! ## Claim C5 — the automated-turn loop is bounded -/

theorem ai_loop_iters_le (fns : AIStepFns) :
    ∀ (fuel iters : Nat) (g : Game), (ai_loop fns fuel iters g).1.2.1 ≤ iters + fuel := by
  intro fuel
  induction fuel with
  | zero =>
    intro iters g
    rw [ai_loop]
    rcases h : aiGuard g with _ | b
    · simp
    · cases b <;> simp
  | succ f ih =>
    intro iters g
    rw [ai_loop]
    rcases h : aiGuard g with _ | b
    · simp
    · cases b
      · simp
      · simp only
        have := ih (iters + 1)
          (fns.execA g (Int.ofNat (g.current_player_index.getD 0)) (fns.decideF g).1
            (fns.decideF g).2)
        omega

theorem ai_loop_exit_immediate (fns : AIStepFns) (fuel iters : Nat) (g : Game)
    (h : aiGuard g = some false) :
    ai_loop fns fuel iters g = ((g, iters, none), []) := by
  cases fuel <;> rw [ai_loop] <;> simp [h]

theorem ai_loop_exit_guard (fns : AIStepFns) :
    ∀ (fuel iters : Nat) (g g' : Game) (n : Nat),
      (ai_loop fns fuel iters g).1 = (g', n, none) → n < iters + fuel →
      aiGuard g' = some false := by
  intro fuel
  induction fuel with
  | zero =>
    intro iters g g' n h hn
    rw [ai_loop] at h
    rcases hg : aiGuard g with _ | b
    · simp [hg] at h
    · cases b
      · simp [hg] at h
        omega
      · simp [hg] at h
        omega
  | succ f ih =>
    intro iters g g' n h hn
    rw [ai_loop] at h
    rcases hg : aiGuard g with _ | b
    · simp [hg] at h
    · cases b
      · simp [hg] at h
        exact h.1 ▸ hg
      · simp only [hg] at h
        exact ih (iters + 1) _ g' n h (by omega)

/-- C5: the automated-turn loop of `player_action` executes at most
`max_ai_iterations` (= 20) iterations for every game state and every
engine/decision behaviour — including an engine that never advances the
current actor — and it exits at once (zero iterations, no state change)
when the hand is over, the current actor is none, or the current actor is
not a bot; moreover a normal exit below the cap happens only because the
guard failed at the final state. -/
theorem C5_ai_loop_bounded (fns : AIStepFns) (g : Game) :
    (ai_loop fns max_ai_iterations 0 g).1.2.1 ≤ max_ai_iterations
  ∧ (aiGuard g = some false → ai_loop fns max_ai_iterations 0 g = ((g, 0, none), []))
  ∧ (∀ g' n, (ai_loop fns max_ai_iterations 0 g).1 = (g', n, none) →
      n < max_ai_iterations → aiGuard g' = some false) := by
  refine ⟨?_, ?_, ?_⟩
  · simpa using ai_loop_iters_le fns max_ai_iterations 0 g
  · intro h
    exact ai_loop_exit_immediate fns max_ai_iterations 0 g h
  · intro g' n h hn
    exact ai_loop_exit_guard fns max_ai_iterations 0 g g' n h (by simpa using hn)

/-- A seated automated player. -/
def wBotPlayer : Player :=
  { name := "CPU", chips := 1000, hand := [], folded := false, current_bet := 0, is_bot := true }

/-- A game whose current actor is a bot; with the stub engine `fns0`
(which never advances the actor) the loop must stop at the cap. -/
def wBotGame : Game :=
  { stage := "preflop", players := [wBotPlayer, wPlayerBob], lobby_timer := none,
    game_starting := false, game_over := false, current_player_index := some 0 }

theorem C5_ai_loop_bounded_witness :
    (ai_loop fns0 max_ai_iterations 0 wBotGame).1.2.1 ≤ max_ai_iterations
  ∧ (ai_loop fns0 max_ai_iterations 0 wBotGame).1.2.1 = 20
  ∧ ai_loop fns0 max_ai_iterations 0 wPreflopGame = ((wPreflopGame, 0, none), [])
  ∧ aiGuard wPreflopGame = some false := by
  refine ⟨(C5_ai_loop_bounded fns0 wBotGame).1, by decide, ?_, rfl⟩
  exact (C5_ai_loop_bounded fns0 wPreflopGame).2.1 rfl

/-! ## Claim C3 — the think-time delay holds the session lock -/

theorem ai_loop_events_shape (fns : AIStepFns) :
    ∀ (fuel iters : Nat) (g : Game) (e : PEvent), e ∈ (ai_loop fns fuel iters g).2 →
      e = PEvent.sleepThink ∨ e = PEvent.applyAction ∨ e = PEvent.broadcastState := by
  intro fuel
  induction fuel with
  | zero =>
    intro iters g e he
    rw [ai_loop] at he
    rcases hg : aiGuard g with _ | b
    · simp [hg] at he
    · cases b <;> simp [hg] at he
  | succ f ih =>
    intro iters g e he
    rw [ai_loop] at he
    rcases hg : aiGuard g with _ | b
    · simp [hg] at he
    · cases b
      · simp [hg] at he
      · simp only [hg, List.mem_cons] at he
        rcases he with he | he | he | he
        · exact Or.inl he
        · exact Or.inr (Or.inl he)
        · exact Or.inr (Or.inr he)
        · exact ih (iters + 1) _ e he

theorem sleepUnheldAux_skip :
    ∀ (evs rest : List PEvent),
      (∀ e ∈ evs, e = PEvent.sleepThink ∨ e = PEvent.applyAction ∨ e = PEvent.broadcastState) →
      sleepUnheldAux true (evs ++ rest) = sleepUnheldAux true rest
  | [], _, _ => rfl
  | e :: es, rest, h => by
    have ht := fun x hx => h x (List.mem_cons_of_mem _ hx)
    rcases h e (List.mem_cons_self _ _) with he | he | he <;> subst he <;>
      simpa [sleepUnheldAux] using sleepUnheldAux_skip es rest ht

theorem sleepHeldAux_found :
    ∀ (evs rest : List PEvent),
      (∀ e ∈ evs, e = PEvent.sleepThink ∨ e = PEvent.applyAction ∨ e = PEvent.broadcastState) →
      PEvent.sleepThink ∈ evs → sleepHeldAux true (evs ++ rest) = true
  | [], _, _, hm => by simp at hm
  | e :: es, rest, h, hm => by
    have ht := fun x hx => h x (List.mem_cons_of_mem _ hx)
    rcases h e (List.mem_cons_self _ _) with he | he | he <;> subst he
    · simp [sleepHeldAux]
    · rcases List.mem_cons.mp hm with hm' | hm'
      · exact absurd hm'.symm (by simp)
      · simpa [sleepHeldAux] using sleepHeldAux_found es rest ht hm'
    · rcases List.mem_cons.mp hm with hm' | hm'
      · exact absurd hm'.symm (by simp)
      · simpa [sleepHeldAux] using sleepHeldAux_found es rest ht hm'

/-- C3 (amended): in every run of `player_action`, no think-time sleep
happens outside the session's exclusive section, and whenever the
automated-turn loop sleeps at all, that sleep happens while the lock is
held: the handler acquires `locks[game_id]` before applying the action
and releases it only after the whole automated-turn loop — including its
think-time delays — has finished. -/
theorem C3_sleep_holds_lock (fns : AIStepFns) (g : Game) (player_index : Int)
    (action : String) (raise_amount : Int) :
    anySleepWhileUnheld (player_action fns g player_index action raise_amount).2.2 = false
  ∧ (PEvent.sleepThink ∈ (player_action fns g player_index action raise_amount).2.2 →
      anySleepWhileHeld (player_action fns g player_index action raise_amount).2.2 = true) := by
  unfold player_action
  by_cases hs : g.stage = "lobby"
  · simp [hs, anySleepWhileUnheld, sleepUnheldAux, anySleepWhileHeld]
  · rcases hp : pyGet g.players player_index with _ | p
    · simp [hs, hp, anySleepWhileUnheld, sleepUnheldAux, anySleepWhileHeld, sleepHeldAux]
    · simp only [hs, hp, if_neg]
      have hshape := fun e he => ai_loop_events_shape fns max_ai_iterations 0
        (fns.execA g player_index action raise_amount) e he
      constructor
      · rcases hr : (ai_loop fns max_ai_iterations 0
            (fns.execA g player_index action raise_amount)).1.2.2 with _ | msg <;>
          simp only [hr] <;>
          · show sleepUnheldAux false (PEvent.acquireLock :: PEvent.applyAction ::
              PEvent.broadcastState :: ((ai_loop fns max_ai_iterations 0
                (fns.execA g player_index action raise_amount)).2 ++ [PEvent.releaseLock])) = false
            simp only [sleepUnheldAux]
            rw [sleepUnheldAux_skip _ _ hshape]
            rfl
      · intro hmem
        rcases hr : (ai_loop fns max_ai_iterations 0
            (fns.execA g player_index action raise_amount)).1.2.2 with _ | msg <;>
          simp only [hr] <;>
          · show sleepHeldAux false (PEvent.acquireLock :: PEvent.applyAction ::
              PEvent.broadcastState :: ((ai_loop fns max_ai_iterations 0
                (fns.execA g player_index action raise_amount)).2 ++ [PEvent.releaseLock])) = true
            simp only [sleepHeldAux]
            apply sleepHeldAux_found _ _ hshape
            -- the sleep in the whole trace must come from the loop's events
            have : PEvent.sleepThink ∈ (ai_loop fns max_ai_iterations 0
                (fns.execA g player_index action raise_amount)).2 ++ [PEvent.releaseLock] := by
              rcases hr2 : (ai_loop fns max_ai_iterations 0
                  (fns.execA g player_index action raise_amount)).1.2.2 with _ | m2 <;>
                simp only [hr2] at hmem <;>
                · rcases List.mem_cons.mp hmem with h1 | h1
                  · exact absurd h1.symm (by simp)
                  · rcases List.mem_cons.mp h1 with h2 | h2
                    · exact absurd h2.symm (by simp)
                    · rcases List.mem_cons.mp h2 with h3 | h3
                      · exact absurd h3.symm (by simp)
                      · exact h3
            rcases List.mem_append.mp this with h4 | h4
            · exact h4
            · simp at h4

/-- C3 counterexample against the claim as stated: with a bot as current
actor the automated-turn loop runs, and its think-time sleeps happen
while the session's exclusive section is held, so other commands for the
session cannot acquire the lock while the delay elapses. -/
theorem C3_counterexample :
    anySleepWhileHeld (player_action fns0 wBotGame 1 "call" 0).2.2 = true
  ∧ PEvent.sleepThink ∈ (player_action fns0 wBotGame 1 "call" 0).2.2 := by
  exact ⟨by decide, by decide⟩

theorem C3_sleep_holds_lock_witness :
    anySleepWhileUnheld (player_action fns0 wBotGame 1 "call" 0).2.2 = false
  ∧ anySleepWhileHeld (player_action fns0 wBotGame 1 "call" 0).2.2 = true := by
  have h := C3_sleep_holds_lock fns0 wBotGame 1 "call" 0
  exact ⟨h.1, h.2 (by decide)⟩

/-! ## Claim C6 — lobby countdown -/

/-- The broadcast/sleep trace of one full countdown pass: ticks 15 down
to 0, one broadcast per tick, a one-second sleep between consecutive
ticks, the "starting soon" flag raised exactly for remaining 5..1. -/
def tickEvents : List LEvent :=
  [LEvent.broadcast (some 15) false, LEvent.sleepOneSecond,
   LEvent.broadcast (some 14) false, LEvent.sleepOneSecond,
   LEvent.broadcast (some 13) false, LEvent.sleepOneSecond,
   LEvent.broadcast (some 12) false, LEvent.sleepOneSecond,
   LEvent.broadcast (some 11) false, LEvent.sleepOneSecond,
   LEvent.broadcast (some 10) false, LEvent.sleepOneSecond,
   LEvent.broadcast (some 9) false, LEvent.sleepOneSecond,
   LEvent.broadcast (some 8) false, LEvent.sleepOneSecond,
   LEvent.broadcast (some 7) false, LEvent.sleepOneSecond,
   LEvent.broadcast (some 6) false, LEvent.sleepOneSecond,
   LEvent.broadcast (some 5) true, LEvent.sleepOneSecond,
   LEvent.broadcast (some 4) true, LEvent.sleepOneSecond,
   LEvent.broadcast (some 3) true, LEvent.sleepOneSecond,
   LEvent.broadcast (some 2) true, LEvent.sleepOneSecond,
   LEvent.broadcast (some 1) true, LEvent.sleepOneSecond,
   LEvent.broadcast (some 0) false]

/-- The events one tick contributes: a broadcast of the remaining time
with the starting-soon flag, then a one-second sleep unless the tick is
the last (remaining = 0). -/
def tickTraceOf (r : Nat) : List LEvent :=
  LEvent.broadcast (some r) (decide (r ≤ 5 ∧ 0 < r)) ::
    (if r = 0 then [] else [LEvent.sleepOneSecond])

theorem countdownStep_spec (acc : Game × List LEvent) (r : Nat) :
    countdownStep acc r = (lobbyTickStep acc.1 r, acc.2 ++ tickTraceOf r) := by
  unfold countdownStep lobbyTickStep tickTraceOf
  by_cases h : r = 0 <;> simp [h]

theorem countdown_fold_trace :
    ∀ (ticks : List Nat) (g : Game) (evs : List LEvent),
      (ticks.foldl countdownStep (g, evs)).2 = evs ++ ticks.flatMap tickTraceOf
  | [], g, evs => by simp
  | r :: ticks, g, evs => by
    rw [List.foldl_cons, countdownStep_spec,
      countdown_fold_trace ticks (lobbyTickStep g r) (evs ++ tickTraceOf r)]
    simp

theorem countdown_fold_state :
    ∀ (ticks : List Nat) (g : Game) (evs : List LEvent),
      (ticks.foldl countdownStep (g, evs)).1 =
        (match ticks.getLast? with
          | none => g
          | some r => lobbyTickStep g r)
  | [], g, evs => rfl
  | [r], g, evs => by
    rw [List.foldl_cons, countdownStep_spec]
    rfl
  | r :: r' :: ticks, g, evs => by
    rw [List.foldl_cons, countdownStep_spec,
      countdown_fold_state (r' :: ticks) (lobbyTickStep g r) (evs ++ tickTraceOf r)]
    rfl

theorem runCountdownTicks_trace (g : Game) : (runCountdownTicks g).2 = tickEvents := by
  rw [runCountdownTicks, countdown_fold_trace]
  rfl

theorem runCountdownTicks_state (g : Game) :
    (runCountdownTicks g).1 = { g with lobby_timer := some 0, game_starting := false } := by
  rw [runCountdownTicks, countdown_fold_state]
  rfl

/-- C6: the countdown ticks once per second from 15 down to 0 (a
broadcast of the remaining time on every tick, with a one-second sleep
between consecutive ticks and none after the final tick), the "starting
soon" flag is broadcast as true exactly for remaining times 1..5; after
the tick at zero the game holds `lobby_timer = 0, game_starting = false`
and `check_and_start_game` runs: with at least `MIN_PLAYERS` occupied
(non-empty-name) seats the stage becomes `"preflop"`, the timer is
cleared and a hand is played, otherwise the timer is reset to 15 and the
countdown task restarted. -/
theorem C6_lobby_countdown_behaviour (playHand : Game → Game) (g : Game) :
    (runCountdownTicks g).2 = tickEvents
  ∧ (runCountdownTicks g).1 = { g with lobby_timer := some 0, game_starting := false }
  ∧ (∀ r : Nat, LEvent.broadcast (some r) true ∈ tickEvents ↔ 1 ≤ r ∧ r ≤ 5)
  ∧ (∀ r : Nat, r ≤ 15 → LEvent.broadcast (some r) (decide (1 ≤ r ∧ r ≤ 5)) ∈ tickEvents)
  ∧ lobby_countdown playHand g =
      ((check_and_start_game playHand (runCountdownTicks g).1).1,
        tickEvents ++ (check_and_start_game playHand (runCountdownTicks g).1).2)
  ∧ (MIN_PLAYERS ≤ activePlayers g →
      check_and_start_game playHand g =
        (playHand { g with stage := "preflop", lobby_timer := none, game_starting := false },
          [LEvent.broadcast
            (playHand { g with stage := "preflop", lobby_timer := none, game_starting := false }).lobby_timer
            (playHand { g with stage := "preflop", lobby_timer := none, game_starting := false }).game_starting]))
  ∧ (activePlayers g < MIN_PLAYERS →
      check_and_start_game playHand g =
        ({ g with lobby_timer := some LOBBY_DURATION },
          [LEvent.broadcast (some LOBBY_DURATION) g.game_starting, LEvent.restartTimer])) := by
  refine ⟨runCountdownTicks_trace g, runCountdownTicks_state g, ?_, ?_, ?_, ?_, ?_⟩
  · intro r
    constructor
    · intro h
      simp only [tickEvents, List.mem_cons, List.not_mem_nil, or_false,
        LEvent.broadcast.injEq, Option.some.injEq] at h
      simp at h
      omega
    · intro h
      have h5 : r = 1 ∨ r = 2 ∨ r = 3 ∨ r = 4 ∨ r = 5 := by omega
      rcases h5 with h5 | h5 | h5 | h5 | h5 <;> subst h5 <;> simp [tickEvents]
  · intro r hr
    interval_cases r <;> decide
  · show ((check_and_start_game playHand (runCountdownTicks g).1).1,
        (runCountdownTicks g).2 ++ (check_and_start_game playHand (runCountdownTicks g).1).2) = _
    rw [runCountdownTicks_trace g]
  · intro h
    simp only [check_and_start_game, if_pos h]
  · intro h
    have h2 : ¬ MIN_PLAYERS ≤ activePlayers g := by omega
    simp only [check_and_start_game, if_neg h2]

/-- A lobby game with both seats occupied. -/
def wTwoSeatedLobby : Game :=
  { stage := "lobby", players := [wPlayerBob, { wPlayerBob with name := "Carol" }],
    lobby_timer := some 0, game_starting := false, game_over := false,
    current_player_index := none }

theorem C6_lobby_countdown_behaviour_witness :
    check_and_start_game id wTwoSeatedLobby =
      ({ wTwoSeatedLobby with stage := "preflop", lobby_timer := none, game_starting := false },
        [LEvent.broadcast none false])
  ∧ check_and_start_game id wLobbyGame =
      ({ wLobbyGame with lobby_timer := some 15 },
        [LEvent.broadcast (some 15) false, LEvent.restartTimer])
  ∧ (runCountdownTicks wLobbyGame).2 = tickEvents
  ∧ (LEvent.broadcast (some 3) true ∈ tickEvents ↔ 1 ≤ 3 ∧ 3 ≤ 5) := by
  have h := C6_lobby_countdown_behaviour id wTwoSeatedLobby
  have h2 := C6_lobby_countdown_behaviour id wLobbyGame
  exact ⟨h.2.2.2.2.2.1 (by decide), h2.2.2.2.2.2.2 (by decide), h2.1, h2.2.2.1 3⟩

/-! ## Claim C1 — the Monte Carlo trial win condition -/

theorem foldl_count_filter {α : Type} (p : α → Bool) :
    ∀ (l : List α) (n : Nat),
      l.foldl (fun w s => if p s then w + 1 else w) n = n + (l.filter p).length
  | [], n => by simp
  | a :: l, n => by
    by_cases h : p a
    · rw [List.foldl_cons, if_pos h, foldl_count_filter p l (n + 1),
        List.filter_cons_of_pos h]
      simp
      omega
    · rw [List.foldl_cons, if_neg h, foldl_count_filter p l n,
        List.filter_cons_of_neg h]

/-- The running-maximum fold of `estWin`'s opponent loop, compared with a
bound: the win test succeeds iff every value scanned (and the seed) is
below the bound. -/
theorem optmax_go_iff (f : Nat → Nat) (x : Nat) :
    ∀ (l : List Nat) (acc : Option Nat),
      ((match l.foldl
          (fun best i =>
            let rank := f i
            match best with
            | none => some rank
            | some b => if b < rank then some rank else some b) acc with
        | none => true
        | some b => decide (b ≤ x)) = true
        ↔ (match acc with | none => True | some b => b ≤ x) ∧ ∀ i ∈ l, f i ≤ x)
  | [], acc => by
    cases acc <;> simp
  | i :: l, acc => by
    rw [List.foldl_cons]
    cases acc with
    | none =>
      rw [optmax_go_iff f x l (some (f i))]
      simp only [List.mem_cons, true_and]
      constructor
      · rintro ⟨h1, h2⟩
        exact fun j hj => hj.elim (fun e => e ▸ h1) (h2 j)
      · intro h
        exact ⟨h i (Or.inl rfl), fun j hj => h j (Or.inr hj)⟩
    | some b =>
      by_cases hb : b < f i
      · simp only [if_pos hb]
        rw [optmax_go_iff f x l (some (f i))]
        simp only [List.mem_cons]
        constructor
        · rintro ⟨h1, h2⟩
          exact ⟨le_trans (le_of_lt hb) h1, fun j hj => hj.elim (fun e => e ▸ h1) (h2 j)⟩
        · rintro ⟨h1, h2⟩
          exact ⟨h2 i (Or.inl rfl), fun j hj => h2 j (Or.inr hj)⟩
      · simp only [if_neg hb]
        rw [optmax_go_iff f x l (some b)]
        simp only [List.mem_cons]
        constructor
        · rintro ⟨h1, h2⟩
          exact ⟨h1, fun j hj => hj.elim (fun e => e ▸ le_trans (not_lt.mp hb) h1) (h2 j)⟩
        · rintro ⟨h1, h2⟩
          exact ⟨h1, fun j hj => h2 j (Or.inr hj)⟩

/-- The source's win test (`our_rank >= best_opp_rank` on the first
components only, with a vacuous win when there is no opponent) holds iff
every opponent's category is at most ours. -/
theorem simTrial_iff_categories (hand community : List Card) (opponents : Nat)
    (shuffled : List Card) :
    simTrial hand community opponents shuffled = true ↔
      ∀ i < opponents,
        (eval_hand (oppHole community shuffled i ++ completedBoard community shuffled)).1
          ≤ (eval_hand (hand ++ completedBoard community shuffled)).1 := by
  unfold simTrial
  rw [optmax_go_iff
    (fun i => (eval_hand (oppHole community shuffled i ++ completedBoard community shuffled)).1)
    ((eval_hand (hand ++ completedBoard community shuffled)).1)
    (List.range opponents) none]
  simp [List.mem_range]

/-- C1 (amended): for a non-empty hand the returned win probability is
the number of winning trials divided by the simulation count, and a
trial counts as a win exactly when the actor's hand **category** (the
first component of the evaluation — the tie-break key is discarded by
`our_rank, _ = eval_hand(...)`) is ≥ every opponent's hand category on
the same completed board. -/
theorem C1_estWin_category_comparison (hand community : List Card) (opponents : Nat)
    (trials : List (List Card)) (h : hand ≠ []) :
    estWin hand community opponents trials =
      ((trials.filter (fun s => simTrial hand community opponents s)).length : ℚ)
        / (trials.length : ℚ)
  ∧ ∀ shuffled, simTrial hand community opponents shuffled = true ↔
      ∀ i < opponents,
        (eval_hand (oppHole community shuffled i ++ completedBoard community shuffled)).1
          ≤ (eval_hand (hand ++ completedBoard community shuffled)).1 := by
  constructor
  · unfold estWin
    rw [if_neg h, foldl_count_filter]
    simp
  · intro shuffled
    exact simTrial_iff_categories hand community opponents shuffled

/-- C1 counterexample to the claim as stated: with hand 2♠2♥ on the full
board K♣Q♦9♠7♥5♦ against one opponent who draws 3♣3♦, both hands evaluate
to the same category (a pair) but the opponent's tie-break key is higher;
the code counts the trial as a win, while the spec's comparison of the
full evaluations including the tie-break key does not. -/
theorem C1_counterexample :
    simTrial [⟨2, 0⟩, ⟨2, 1⟩] [⟨13, 2⟩, ⟨12, 3⟩, ⟨9, 0⟩, ⟨7, 1⟩, ⟨5, 3⟩] 1 [⟨3, 2⟩, ⟨3, 3⟩]
      = true
  ∧ specTrialWin [⟨2, 0⟩, ⟨2, 1⟩] [⟨13, 2⟩, ⟨12, 3⟩, ⟨9, 0⟩, ⟨7, 1⟩, ⟨5, 3⟩] 1 [⟨3, 2⟩, ⟨3, 3⟩]
      = false
  ∧ eval_hand ([⟨2, 0⟩, ⟨2, 1⟩] ++ [⟨13, 2⟩, ⟨12, 3⟩, ⟨9, 0⟩, ⟨7, 1⟩, ⟨5, 3⟩])
      = (1, [2, 13, 12, 9])
  ∧ eval_hand ([⟨3, 2⟩, ⟨3, 3⟩] ++ [⟨13, 2⟩, ⟨12, 3⟩, ⟨9, 0⟩, ⟨7, 1⟩, ⟨5, 3⟩])
      = (1, [3, 13, 12, 9]) := by
  exact ⟨by decide, by decide, by decide, by decide⟩

/-- The pocket-aces hand used by the Monte Carlo witnesses. -/
def wAces : List Card := [⟨14, 0⟩, ⟨14, 1⟩]

/-- A fixed full board. -/
def wBoard : List Card := [⟨13, 2⟩, ⟨12, 3⟩, ⟨9, 0⟩, ⟨7, 1⟩, ⟨5, 3⟩]

/-- A trial shuffle dealing the lone opponent 3♣2♣ (we win). -/
def wShufLow : List Card := [⟨3, 2⟩, ⟨2, 2⟩]

/-- A trial shuffle dealing the lone opponent K♠K♥ (trips beat our pair). -/
def wShufK : List Card := [⟨13, 0⟩, ⟨13, 1⟩]

theorem C1_estWin_category_comparison_witness :
    estWin wAces wBoard 1 [wShufLow, wShufK] = 1 / 2
  ∧ (simTrial wAces wBoard 1 wShufK = true ↔
      ∀ i < 1, (eval_hand (oppHole wBoard wShufK i ++ completedBoard wBoard wShufK)).1
        ≤ (eval_hand (wAces ++ completedBoard wBoard wShufK)).1) := by
  have h := C1_estWin_category_comparison wAces wBoard 1 [wShufLow, wShufK] (by decide)
  refine ⟨?_, h.2 wShufK⟩
  have hlen : (List.filter (fun s => simTrial wAces wBoard 1 s) [wShufLow, wShufK]).length = 1 :=
    by decide
  have hlen2 : ([wShufLow, wShufK].length) = 2 := rfl
  have h1 := h.1
  rw [hlen, hlen2] at h1
  exact h1.trans (by norm_num)

/-! ## Claims C4 and C9 — the decision policy of `MonteCarloAI.decide` -/

theorem estWin_empty_hand (community : List Card) (opponents : Nat)
    (trials : List (List Card)) : estWin [] community opponents trials = 0 := by
  simp [estWin]

/-- The high band of `decide`: win probability strictly above 0.7. -/
theorem decide_high_band (name difficulty : String) (trials : List (List Card))
    (raisePick : Fin 3) (bluffRoll : ℚ) (st : MCState) (bot : MCPlayer)
    (hA : st.legal_actions ≠ []) (hB : findBot name st.players = some bot)
    (hw : (7 / 10 : ℚ) < estWin bot.hand st.community_cards (st.players.length - 1) trials) :
    MonteCarloAI.decide name difficulty trials raisePick bluffRoll st =
      .ok (if "raise" ∈ st.legal_actions then some ⟨"raise", raiseMenu raisePick⟩
        else if "call" ∈ st.legal_actions then some ⟨"call", 0⟩
        else none) := by
  unfold MonteCarloAI.decide
  rw [if_neg hA, hB]
  simp only [if_pos hw]
  by_cases hr : "raise" ∈ st.legal_actions
  · rw [if_pos hr, if_pos hr]
  · rw [if_neg hr, if_neg hr]
    by_cases hc : "call" ∈ st.legal_actions
    · rw [if_pos hc, if_pos hc]
    · rw [if_neg hc, if_neg hc]

/-- The mid band of `decide`: win probability in (0.45, 0.7]. -/
theorem decide_mid_band (name difficulty : String) (trials : List (List Card))
    (raisePick : Fin 3) (bluffRoll : ℚ) (st : MCState) (bot : MCPlayer)
    (hA : st.legal_actions ≠ []) (hB : findBot name st.players = some bot)
    (hw7 : ¬ (7 / 10 : ℚ) < estWin bot.hand st.community_cards (st.players.length - 1) trials)
    (hw45 : (45 / 100 : ℚ) < estWin bot.hand st.community_cards (st.players.length - 1) trials) :
    MonteCarloAI.decide name difficulty trials raisePick bluffRoll st =
      .ok (some (if "call" ∈ st.legal_actions ∧ st.to_call < st.pot * (2 / 5) then ⟨"call", 0⟩
        else if "check" ∈ st.legal_actions then ⟨"check", 0⟩
        else ⟨"fold", 0⟩)) := by
  unfold MonteCarloAI.decide
  rw [if_neg hA, hB]
  simp only [if_neg hw7, if_pos hw45]
  by_cases hc : "call" ∈ st.legal_actions ∧ st.to_call < st.pot * (2 / 5)
  · rw [if_pos hc, if_pos hc]
  · rw [if_neg hc, if_neg hc]
    by_cases hch : "check" ∈ st.legal_actions
    · rw [if_pos hch, if_pos hch]
    · rw [if_neg hch, if_neg hch]

/-- The low band of `decide`: win probability at most 0.45 (which a
fortiori is not above 0.7). -/
theorem decide_low_band (name difficulty : String) (trials : List (List Card))
    (raisePick : Fin 3) (bluffRoll : ℚ) (st : MCState) (bot : MCPlayer) (bc : ℚ)
    (hA : st.legal_actions ≠ []) (hB : findBot name st.players = some bot)
    (hw45 : ¬ (45 / 100 : ℚ) < estWin bot.hand st.community_cards (st.players.length - 1) trials)
    (hd : bluffChance difficulty = some bc) :
    MonteCarloAI.decide name difficulty trials raisePick bluffRoll st =
      .ok (some (if "raise" ∈ st.legal_actions ∧ bluffRoll < bc then ⟨"raise", 30⟩
        else if "check" ∈ st.legal_actions then ⟨"check", 0⟩
        else ⟨"fold", 0⟩)) := by
  have hw7 : ¬ (7 / 10 : ℚ)
      < estWin bot.hand st.community_cards (st.players.length - 1) trials := by
    intro h
    exact hw45 (lt_trans (by norm_num) h)
  unfold MonteCarloAI.decide
  rw [if_neg hA, hB]
  simp only [if_neg hw7, if_neg hw45, hd]
  by_cases hr : "raise" ∈ st.legal_actions ∧ bluffRoll < bc
  · rw [if_pos hr, if_pos hr]
  · rw [if_neg hr, if_neg hr]
    by_cases hch : "check" ∈ st.legal_actions
    · rw [if_pos hch, if_pos hch]
    · rw [if_neg hch, if_neg hch]

/-- C4 (amended): with the actor present and a non-empty legal-action
set, above 0.70 `decide` raises (with a menu size) when raising is
legal, otherwise calls when calling is legal, otherwise returns no
decision at all (Python `None` — not a call as the claim states); in the
mid band (above 0.45, not above 0.70) it calls iff calling is legal and
the call amount is strictly below 40% of the pot, else checks if legal,
else folds. -/
theorem C4_decide_bands (name difficulty : String) (trials : List (List Card))
    (raisePick : Fin 3) (bluffRoll : ℚ) (st : MCState) (bot : MCPlayer)
    (hA : st.legal_actions ≠ []) (hB : findBot name st.players = some bot) :
    ((7 / 10 : ℚ) < estWin bot.hand st.community_cards (st.players.length - 1) trials →
      MonteCarloAI.decide name difficulty trials raisePick bluffRoll st =
        .ok (if "raise" ∈ st.legal_actions then some ⟨"raise", raiseMenu raisePick⟩
          else if "call" ∈ st.legal_actions then some ⟨"call", 0⟩
          else none))
  ∧ (¬ (7 / 10 : ℚ) < estWin bot.hand st.community_cards (st.players.length - 1) trials →
      (45 / 100 : ℚ) < estWin bot.hand st.community_cards (st.players.length - 1) trials →
      MonteCarloAI.decide name difficulty trials raisePick bluffRoll st =
        .ok (some (if "call" ∈ st.legal_actions ∧ st.to_call < st.pot * (2 / 5) then ⟨"call", 0⟩
          else if "check" ∈ st.legal_actions then ⟨"check", 0⟩
          else ⟨"fold", 0⟩))) := by
  constructor
  · intro hw
    exact decide_high_band name difficulty trials raisePick bluffRoll st bot hA hB hw
  · intro hw7 hw45
    exact decide_mid_band name difficulty trials raisePick bluffRoll st bot hA hB hw7 hw45

/-- A state whose only legal action is `check`, with the bot seated. -/
def wStateCheckOnly : MCState :=
  { legal_actions := ["check"], players := [⟨"Bot", wAces⟩, ⟨"P2", []⟩],
    community_cards := wBoard, pot := 100, to_call := 0 }

theorem estWin_wAces_one : estWin wAces wBoard 1 [wShufLow] = 1 := by
  unfold estWin
  rw [if_neg (by decide), foldl_count_filter]
  have hl : (List.filter (fun s => simTrial wAces wBoard 1 s) [wShufLow]).length = 1 := by
    decide
  rw [hl]
  norm_num

theorem estWin_wAces_half : estWin wAces wBoard 1 [wShufLow, wShufK] = 1 / 2 := by
  unfold estWin
  rw [if_neg (by decide), foldl_count_filter]
  have hl : (List.filter (fun s => simTrial wAces wBoard 1 s) [wShufLow, wShufK]).length = 1 := by
    decide
  rw [hl]
  norm_num

/-- C4 counterexample to the claim as stated: a state whose only legal
action is `check` with a forced win probability of 1 (> 0.70).  The
claim demands a call; the Python function returns `None` (it falls off
the end of the `if` block). -/
theorem C4_counterexample :
    MonteCarloAI.decide "Bot" "medium" [wShufLow] 0 0 wStateCheckOnly = Except.ok none
  ∧ (7 / 10 : ℚ) < estWin wAces wBoard 1 [wShufLow]
  ∧ "raise" ∉ wStateCheckOnly.legal_actions ∧ "call" ∉ wStateCheckOnly.legal_actions := by
  have hw : (7 / 10 : ℚ) < estWin wAces wBoard 1 [wShufLow] := by
    rw [estWin_wAces_one]
    norm_num
  refine ⟨?_, hw, by decide, by decide⟩
  have h := decide_high_band "Bot" "medium" [wShufLow] 0 0 wStateCheckOnly ⟨"Bot", wAces⟩
    (by decide) rfl hw
  rw [h, if_neg (by decide), if_neg (by decide)]

theorem C4_decide_bands_witness :
    MonteCarloAI.decide "Bot" "medium" [wShufLow] 0 0 wStateCheckOnly = Except.ok none
  ∧ MonteCarloAI.decide "Bot" "medium" [wShufLow, wShufK] 0 0 wStateCheckOnly =
      Except.ok (some ⟨"check", 0⟩) := by
  have hw : (7 / 10 : ℚ) < estWin wAces wBoard 1 [wShufLow] := by
    rw [estWin_wAces_one]
    norm_num
  have hw7 : ¬ (7 / 10 : ℚ) < estWin wAces wBoard 1 [wShufLow, wShufK] := by
    rw [estWin_wAces_half]
    norm_num
  have hw45 : (45 / 100 : ℚ) < estWin wAces wBoard 1 [wShufLow, wShufK] := by
    rw [estWin_wAces_half]
    norm_num
  constructor
  · have h := (C4_decide_bands "Bot" "medium" [wShufLow] 0 0 wStateCheckOnly ⟨"Bot", wAces⟩
      (by decide) rfl).1 hw
    rw [h, if_neg (by decide), if_neg (by decide)]
  · have h := (C4_decide_bands "Bot" "medium" [wShufLow, wShufK] 0 0 wStateCheckOnly
      ⟨"Bot", wAces⟩ (by decide) rfl).2 hw7 hw45
    rw [h, if_neg (fun hc => absurd hc.1 (by decide)), if_pos (by decide)]

/-- C9 (amended): with an empty legal-action set `decide` returns check;
with the actor absent from the player list it returns fold; with the
actor present but holding no hole cards the win probability is 0 and the
low band applies: `decide` returns check when checking is legal and fold
otherwise — **except** that it bluff-raises 30 whenever raising is legal
and the bluff roll is below the difficulty's bluff chance.  In all these
cases it returns a value (no exception) as long as the difficulty string
is a known key. -/
theorem C9_fail_safe (name difficulty : String) (trials : List (List Card))
    (raisePick : Fin 3) (bluffRoll : ℚ) (st : MCState) (bc : ℚ)
    (hd : bluffChance difficulty = some bc) :
    (st.legal_actions = [] →
      MonteCarloAI.decide name difficulty trials raisePick bluffRoll st =
        .ok (some ⟨"check", 0⟩))
  ∧ (findBot name st.players = none → st.legal_actions ≠ [] →
      MonteCarloAI.decide name difficulty trials raisePick bluffRoll st =
        .ok (some ⟨"fold", 0⟩))
  ∧ (∀ bot, findBot name st.players = some bot → bot.hand = [] → st.legal_actions ≠ [] →
      MonteCarloAI.decide name difficulty trials raisePick bluffRoll st =
        .ok (some (if "raise" ∈ st.legal_actions ∧ bluffRoll < bc then ⟨"raise", 30⟩
          else if "check" ∈ st.legal_actions then ⟨"check", 0⟩
          else ⟨"fold", 0⟩))) := by
  refine ⟨?_, ?_, ?_⟩
  · intro h
    unfold MonteCarloAI.decide
    rw [if_pos h]
  · intro h hA
    unfold MonteCarloAI.decide
    rw [if_neg hA, h]
  · intro bot hB hhand hA
    have hw45 : ¬ (45 / 100 : ℚ)
        < estWin bot.hand st.community_cards (st.players.length - 1) trials := by
      rw [hhand, estWin_empty_hand]
      norm_num
    exact decide_low_band name difficulty trials raisePick bluffRoll st bot bc hA hB hw45 hd

/-- A state with no hole cards for the bot and raise/fold legal. -/
def wStateNoHand : MCState :=
  { legal_actions := ["raise", "fold"], players := [⟨"Bot", []⟩, ⟨"P2", []⟩],
    community_cards := [], pot := 10, to_call := 5 }

/-- C9 counterexample to the claim as stated: with no observable hole
cards (win probability 0) but raising legal and a bluff roll of 0.01
below the medium bluff chance 0.1, `decide` returns a **raise** of 30 —
not a fold or check. -/
theorem C9_counterexample :
    MonteCarloAI.decide "Bot" "medium" [] 0 (1 / 100) wStateNoHand =
      Except.ok (some ⟨"raise", 30⟩)
  ∧ (⟨"Bot", []⟩ : MCPlayer).hand = [] := by
  refine ⟨?_, rfl⟩
  have hw45 : ¬ (45 / 100 : ℚ) < estWin ([] : List Card) wStateNoHand.community_cards
      (wStateNoHand.players.length - 1) [] := by
    rw [estWin_empty_hand]
    norm_num
  have h := decide_low_band "Bot" "medium" [] 0 (1 / 100) wStateNoHand ⟨"Bot", []⟩ (1 / 10)
    (by decide) rfl hw45 rfl
  rw [h, if_pos ⟨by decide, by norm_num⟩]

/-- A state with an empty legal-action set. -/
def wStateEmptyActs : MCState :=
  { legal_actions := [], players := [], community_cards := [], pot := 0, to_call := 0 }

theorem C9_fail_safe_witness :
    MonteCarloAI.decide "Bot" "medium" [] 0 (1 / 2) wStateEmptyActs =
      Except.ok (some ⟨"check", 0⟩)
  ∧ MonteCarloAI.decide "Ghost" "medium" [] 0 (1 / 2) wStateCheckOnly =
      Except.ok (some ⟨"fold", 0⟩)
  ∧ MonteCarloAI.decide "Bot" "medium" [] 0 (1 / 2) wStateNoHand =
      Except.ok (some ⟨"fold", 0⟩) := by
  refine ⟨?_, ?_, ?_⟩
  · exact (C9_fail_safe "Bot" "medium" [] 0 (1 / 2) wStateEmptyActs (1 / 10) rfl).1 rfl
  · exact (C9_fail_safe "Ghost" "medium" [] 0 (1 / 2) wStateCheckOnly (1 / 10) rfl).2.1 rfl
      (by decide)
  · have h := (C9_fail_safe "Bot" "medium" [] 0 (1 / 2) wStateNoHand (1 / 10) rfl).2.2
      ⟨"Bot", []⟩ rfl rfl (by decide)
    rw [h, if_neg (fun hc => absurd hc.2 (by norm_num)), if_neg (by decide)]

/-! ## Claim C8 — broadcast pruning -/

theorem broadcast_fold_spec {σ : Type} (fails : ConnState → Bool)
    (personalize : Option String → σ) :
    ∀ (cs : List ConnState) (acc1 : List (Nat × σ)) (acc2 : List ConnState),
      cs.foldl (broadcastStep fails personalize) (acc1, acc2) =
        (acc1 ++ (cs.filter (fun c => !(fails c))).map
            (fun c => (c.ws, personalize (viewerName c))),
          acc2 ++ cs.filter fails)
  | [], acc1, acc2 => by simp
  | c :: cs, acc1, acc2 => by
    rw [List.foldl_cons]
    by_cases h : fails c
    · simp only [broadcastStep, if_pos h]
      rw [broadcast_fold_spec fails personalize cs acc1 (acc2 ++ [c])]
      simp [h]
    · simp only [broadcastStep, if_neg h]
      rw [broadcast_fold_spec fails personalize cs
        (acc1 ++ [(c.ws, personalize (viewerName c))]) acc2]
      simp [h]

/-- `broadcast` over a game whose registered list is `cs`, split into its
send loop and its disconnect pass. -/
theorem broadcast_eq {σ : Type} (fails : ConnState → Bool) (personalize : Option String → σ)
    (m : ConnectionManager) (gid : String) (cs : List ConnState)
    (hcs : aget gid m.game_connections = some cs) :
    broadcast fails personalize m gid =
      ((cs.filter fails).foldl (fun mm c => disconnect mm gid c.ws) m,
        (cs.filter (fun c => !(fails c))).map (fun c => (c.ws, personalize (viewerName c)))) := by
  unfold broadcast
  rw [hcs]
  simp only [Option.getD_some]
  rw [broadcast_fold_spec fails personalize cs [] []]
  simp

theorem disconnect_fold (gid : String) :
    ∀ (R : List ConnState) (m : ConnectionManager) (L : List ConnState),
      aget gid m.game_connections = some L →
      (∀ c ∈ R, aget c.ws m.ws_to_state = some c) →
      (m.ws_to_state.map Prod.fst).Nodup →
      R.Pairwise (fun a b => a.ws ≠ b.ws) →
      (aget gid (R.foldl (fun mm c => disconnect mm gid c.ws) m).game_connections
          = some (R.foldl List.erase L)
        ∧ (∀ c ∈ R,
            aget c.ws (R.foldl (fun mm c => disconnect mm gid c.ws) m).ws_to_state = none)
        ∧ (∀ w : Nat, (∀ c ∈ R, c.ws ≠ w) →
            aget w (R.foldl (fun mm c => disconnect mm gid c.ws) m).ws_to_state
              = aget w m.ws_to_state))
  | [], m, L, hL, _, _, _ => ⟨hL, by simp, fun w _ => rfl⟩
  | c :: R, m, L, hL, hcoh, hkeys, hpair => by
    rw [List.pairwise_cons] at hpair
    have hc : aget c.ws m.ws_to_state = some c := hcoh c (List.mem_cons_self _ _)
    have hm1 : disconnect m gid c.ws =
        { m with game_connections := aset gid (L.erase c) m.game_connections,
                 ws_to_state := adel c.ws m.ws_to_state } := by
      simp only [disconnect, hc, hL]
    have hL1 : aget gid (disconnect m gid c.ws).game_connections = some (L.erase c) := by
      rw [hm1]
      exact aget_aset_self gid _ m.game_connections
    have hcoh1 : ∀ c' ∈ R, aget c'.ws (disconnect m gid c.ws).ws_to_state = some c' := by
      intro c' hc'
      rw [hm1]
      show aget c'.ws (adel c.ws m.ws_to_state) = some c'
      rw [aget_adel_ne c.ws c'.ws (hpair.1 c' hc')]
      exact hcoh c' (List.mem_cons_of_mem _ hc')
    have hkeys1 : ((disconnect m gid c.ws).ws_to_state.map Prod.fst).Nodup := by
      rw [hm1]
      exact keys_adel c.ws m.ws_to_state hkeys
    have ih := disconnect_fold gid R (disconnect m gid c.ws) (L.erase c) hL1 hcoh1 hkeys1 hpair.2
    refine ⟨ih.1, ?_, ?_⟩
    · intro c' hc'
      rcases List.mem_cons.mp hc' with h' | h'
      · subst h'
        rw [List.foldl_cons]
        rw [ih.2.2 c'.ws (fun c'' hc'' => (hpair.1 c'' hc'').symm), hm1]
        exact aget_adel_self c'.ws m.ws_to_state hkeys
      · exact ih.2.1 c' h'
    · intro w hw
      rw [List.foldl_cons, ih.2.2 w (fun c'' hc'' => hw c'' (List.mem_cons_of_mem _ hc'')), hm1]
      exact aget_adel_ne c.ws w (hw c (List.mem_cons_self _ _)) m.ws_to_state

theorem erase_fold_filter (cs : List ConnState) (hnd : cs.Nodup) (p : ConnState → Bool) :
    (cs.filter p).foldl List.erase cs = cs.filter (fun c => !(p c)) := by
  rw [← List.diff_eq_foldl, hnd.diff_eq_filter]
  apply List.filter_congr
  intro c hc
  by_cases h : p c
  · simp [List.mem_filter, hc, h]
  · simp [List.mem_filter, hc, h]

/-- C8: broadcasting over a coherently-registered viewer list (every
listed connection is bound to its websocket in `ws_to_state`, websocket
handles are pairwise distinct): every viewer whose send does not fail
receives exactly its personalized snapshot (in registration order), the
game's connection list afterwards consists of exactly the non-failing
viewers, every failing viewer's websocket binding is removed, and a
subsequent broadcast — under any failure pattern and any
personalization — delivers nothing to a pruned websocket.  The game
state is not an input of `broadcast` at all (`personalize` closes over
it), so it is unaffected. -/
theorem C8_broadcast_prunes {σ : Type} (fails : ConnState → Bool)
    (personalize : Option String → σ) (m : ConnectionManager) (gid : String)
    (cs : List ConnState)
    (hcs : aget gid m.game_connections = some cs)
    (hpair : cs.Pairwise (fun a b => a.ws ≠ b.ws))
    (hcoh : ∀ c ∈ cs, aget c.ws m.ws_to_state = some c)
    (hkeys : (m.ws_to_state.map Prod.fst).Nodup) :
    ((broadcast fails personalize m gid).2 =
        (cs.filter (fun c => !(fails c))).map (fun c => (c.ws, personalize (viewerName c))))
  ∧ aget gid (broadcast fails personalize m gid).1.game_connections =
      some (cs.filter (fun c => !(fails c)))
  ∧ (∀ c ∈ cs, fails c = true →
      aget c.ws (broadcast fails personalize m gid).1.ws_to_state = none)
  ∧ (∀ c ∈ cs, fails c = true →
      ∀ (fails2 : ConnState → Bool) (pers2 : Option String → σ) (x : σ),
        (c.ws, x) ∉ (broadcast fails2 pers2 (broadcast fails personalize m gid).1 gid).2) := by
  have hnd : cs.Nodup := hpair.imp (fun h => fun he => h (congrArg ConnState.ws he))
  have hunf := broadcast_eq fails personalize m gid cs hcs
  have hdis := disconnect_fold gid (cs.filter fails) m cs hcs
    (fun c hc => hcoh c (List.mem_filter.mp hc).1)
    hkeys
    (hpair.sublist (List.filter_sublist cs))
  have herase : (cs.filter fails).foldl List.erase cs = cs.filter (fun c => !(fails c)) :=
    erase_fold_filter cs hnd fails
  refine ⟨?_, ?_, ?_, ?_⟩
  · rw [hunf]
  · rw [hunf]
    show aget gid ((cs.filter fails).foldl
      (fun mm c => disconnect mm gid c.ws) m).game_connections = _
    rw [hdis.1, herase]
  · intro c hc hf
    rw [hunf]
    exact hdis.2.1 c (List.mem_filter.mpr ⟨hc, hf⟩)
  · intro c hc hf fails2 pers2 x hmem
    have hcs2 : aget gid (broadcast fails personalize m gid).1.game_connections =
        some (cs.filter (fun c => !(fails c))) := by
      rw [hunf]
      show aget gid ((cs.filter fails).foldl
        (fun mm c => disconnect mm gid c.ws) m).game_connections = _
      rw [hdis.1, herase]
    have hunf2 := broadcast_eq fails2 pers2 (broadcast fails personalize m gid).1 gid
      (cs.filter (fun c => !(fails c))) hcs2
    rw [hunf2] at hmem
    have hmem2 : (c.ws, x) ∈ ((cs.filter (fun c => !(fails c))).filter
        (fun c => !(fails2 c))).map (fun c => (c.ws, pers2 (viewerName c))) := hmem
    clear hmem
    rcases List.mem_map.mp hmem2 with ⟨c', hc', heq⟩
    have hc'cs : c' ∈ cs ∧ ¬ fails c' = true := by
      have h1 := List.mem_filter.mp hc'
      have h2 := List.mem_filter.mp h1.1
      exact ⟨h2.1, by simpa using h2.2⟩
    have hne : c' ≠ c := fun he => hc'cs.2 (he ▸ hf)
    have hwsne : c'.ws ≠ c.ws :=
      hpair.forall (fun a b h => fun he => h he.symm) hc'cs.1 hc hne
    exact hwsne (congrArg Prod.fst heq)

/-- A failing spectator connection on websocket 1. -/
def wConnA : ConnState :=
  { ws := 1, connection_id := 1, role := "spectator", player_name := none,
    seat_index := none, game_id := some "g" }

/-- A healthy player connection on websocket 2, bound to seat 1 as "Bob". -/
def wConnB : ConnState :=
  { ws := 2, connection_id := 2, role := "player", player_name := some "Bob",
    seat_index := some 1, game_id := some "g" }

/-- A manager with both connections registered for game `"g"`. -/
def wManager2 : ConnectionManager :=
  { game_connections := [("g", [wConnA, wConnB])],
    ws_to_state := [(1, wConnA), (2, wConnB)], connection_counter := 2 }

/-- Sends to websocket 1 fail. -/
def wFails : ConnState → Bool := fun c => c.ws == 1

/-- A personalization standing for `get_game_state(viewer_name=...)`. -/
def wPers : Option String → String
  | some n => n
  | none => "redacted"

theorem C8_broadcast_prunes_witness :
    (broadcast wFails wPers wManager2 "g").2 = [(2, "Bob")]
  ∧ aget "g" (broadcast wFails wPers wManager2 "g").1.game_connections = some [wConnB]
  ∧ aget 1 (broadcast wFails wPers wManager2 "g").1.ws_to_state = none
  ∧ ∀ x, (1, x) ∉ (broadcast wFails wPers (broadcast wFails wPers wManager2 "g").1 "g").2 := by
  have h := C8_broadcast_prunes wFails wPers wManager2 "g" [wConnA, wConnB] rfl
    (by decide) (by decide) (by decide)
  refine ⟨h.1, h.2.1, h.2.2.1 wConnA (by decide) rfl, ?_⟩
  intro x
  exact h.2.2.2 wConnA (by decide) rfl wFails wPers x

end Poker
